import Mathlib

/-!
Verification of the nof1-tracker next-gen pipeline.

This file gives a shallow embedding of the guard/decision pipeline
(`src/guards/runner.ts`, `src/index.ts`), the watch-state deduplicator
(`src/services/watch-state.ts`) and the OKX position-reconciliation and
order-sizing algorithm (`src/exchange/okx-executor.ts`), and proves the
specified properties about them.

Modelling conventions:
* JavaScript numbers are modelled as exact rationals (`ℚ`); `Math.floor`,
  `Math.ceil`, `Math.abs` and `Math.sign` become their exact counterparts.
* `Date.now()` / `new Date()` readings are passed in as explicit clock
  parameters (milliseconds, `Int`).
* Fallible venue calls are modelled with `Except String`; a thrown
  JavaScript exception is an `Except.error`.
* Human-readable message strings that only matter for logging are kept as
  simple constants (the code formats numbers into them; the formatted
  payload is irrelevant to every claim).
-/

/-- Side of a normalized signal (`"LONG" | "SHORT"`). -/
inductive Side where
  | LONG
  | SHORT
deriving DecidableEq, Repr

/-- `DecisionAction` from `src/types/decision.ts`. -/
inductive DecisionAction where
  | EXECUTE
  | SKIP
  | SIMULATE
deriving DecidableEq, Repr

/-- `NormalizedSignal` from `src/types/signal.ts`. -/
structure NormalizedSignal where
  agentId : String
  symbol : String
  side : Side
  quantity : ℚ
  leverage : ℚ
  entryPrice : ℚ
  entryOid : Int
  signalMarker : Int
  currentPrice : ℚ
  receivedAt : String
  signalTimestamp : Option String
deriving DecidableEq, Repr

/-- The `exit_plan` fragment of a raw source position that the executor
reads (`profit_target` / `stop_loss`). -/
structure RawPosition where
  profitTarget : Option ℚ
  stopLoss : Option ℚ
deriving DecidableEq, Repr

/-- The `meta` block attached to every recorded signal
(`RawSignalRecord.meta` in `src/types/signal.ts`). -/
structure MetaInfo where
  source : String
  inputFile : Option String
deriving DecidableEq, Repr

/-- `GuardResult` from `src/guards/types.ts`.  The `details` record is a
string-keyed debug payload produced alongside `reason`; it is determined
by the same inputs and is omitted from the embedding. -/
structure GuardResult where
  guard : String
  passed : Bool
  reason : Option String
deriving DecidableEq, Repr

/-- `GuardContext` from `src/guards/types.ts`. -/
structure GuardContext where
  now : Int
  rawPosition : Option RawPosition
  meta : MetaInfo
deriving DecidableEq, Repr

/-- A `Guard` (`src/guards/types.ts`): a name together with a pure
`check(signal, context)` function. -/
structure Guard where
  name : String
  check : NormalizedSignal → GuardContext → GuardResult

/-- `GuardEvaluation` from `src/guards/runner.ts`. -/
structure GuardEvaluation where
  signal : NormalizedSignal
  results : List GuardResult
  passed : Bool
deriving DecidableEq, Repr

/-- `runGuards` from `src/guards/runner.ts`. -/
def runGuards (signal : NormalizedSignal) (context : GuardContext)
    (guards : List Guard) : GuardEvaluation :=
  if guards.isEmpty then
    { signal := signal, results := [], passed := true }
  else
    let results := guards.map (fun guard => guard.check signal context)
    let passed := results.all (fun result => result.passed)
    { signal := signal, results := results, passed := passed }

/-- A signal bundle as handed to `buildDecision` (`SignalBundle` in
`src/index.ts`): the normalized signal, the raw source position and the
record metadata. -/
structure SignalBundle where
  normalized : NormalizedSignal
  raw : Option RawPosition
  meta : MetaInfo
deriving DecidableEq, Repr

/-- `Decision` from `src/types/decision.ts` (without the late
`execution` attachment, which is modelled separately). -/
structure Decision where
  id : String
  createdAt : Int
  action : DecisionAction
  reasonCode : String
  reason : Option String
  signal : NormalizedSignal
  guards : List GuardResult
  raw : Option RawPosition
  meta : MetaInfo
deriving DecidableEq, Repr

/-- `generateDecisionId` from `src/index.ts`:
`agentId-symbol-entryOid-Date.now()`. -/
def generateDecisionId (signal : NormalizedSignal) (now : Int) : String :=
  signal.agentId ++ "-" ++ signal.symbol ++ "-" ++ toString signal.entryOid
    ++ "-" ++ toString now

/-- `buildDecision` from `src/index.ts`.  The two clock reads
(`Date.now()` inside `generateDecisionId` and `new Date()` for
`createdAt`) are modelled by the single parameter `now`. -/
def buildDecision (bundle : SignalBundle) (evaluation : GuardEvaluation)
    (simulate : Bool) (now : Int) : Decision :=
  let baseAction : DecisionAction :=
    if evaluation.passed then .EXECUTE else .SKIP
  let action : DecisionAction := if simulate then .SIMULATE else baseAction
  let failingGuard := evaluation.results.find? (fun result => !result.passed)
  let reasonCode :=
    match failingGuard with
    | some fg => fg.guard ++ "_FAIL"
    | none => if simulate then "SIMULATED" else "GUARDS_PASS"
  { id := generateDecisionId bundle.normalized now
    createdAt := now
    action := action
    reasonCode := reasonCode
    reason := failingGuard.bind (fun fg => fg.reason)
    signal := bundle.normalized
    guards := evaluation.results
    raw := bundle.raw
    meta := bundle.meta }

/-- One recorded entry of the raw-signal log as read back by replay
(`RawSignalRecord` restricted to the fields `handleReplay` uses). -/
structure RawEvent where
  normalized : NormalizedSignal
  raw : Option RawPosition
  meta : MetaInfo
deriving DecidableEq, Repr

/-- The in-memory Decision list computed by `handleReplay` via
`processSignalBundles` (`src/index.ts`): each recorded event is re-run
through the current guard pipeline and turned into a Decision.  `now` is
the clock reading of this replay run; nothing is fetched from the signal
source (the function receives only the recorded `events`). -/
def replayDecisions (events : List RawEvent) (guards : List Guard)
    (simulate : Bool) (now : Int) : List Decision :=
  events.map (fun event =>
    let evaluation := runGuards event.normalized
      { now := now, rawPosition := event.raw, meta := event.meta } guards
    buildDecision
      { normalized := event.normalized, raw := event.raw, meta := event.meta }
      evaluation simulate now)

/-- The clock-independent portion of a Decision: everything except the
generated `id` and `createdAt`. -/
def decisionCore (d : Decision) :
    DecisionAction × String × Option String × NormalizedSignal ×
      List GuardResult × Option RawPosition × MetaInfo :=
  (d.action, d.reasonCode, d.reason, d.signal, d.guards, d.raw, d.meta)

/-! ## Position reconciliation and order sizing (`src/exchange/okx-executor.ts`) -/

/-- `OkxInstrumentMeta` from `src/exchange/okx-http.ts` (the numeric
venue constraints; `instId`/`instType` strings are omitted). -/
structure Instrument where
  ctVal : ℚ
  lotSz : ℚ
  minSz : ℚ
deriving DecidableEq, Repr

/-- `instrument.ctVal || 1`: JavaScript `||` substitutes `1` when the
field is `0` (the only falsy rational). -/
def effCtVal (instrument : Instrument) : ℚ :=
  if instrument.ctVal = 0 then 1 else instrument.ctVal

/-- `instrument.lotSz || 1`. -/
def effLotSz (instrument : Instrument) : ℚ :=
  if instrument.lotSz = 0 then 1 else instrument.lotSz

/-- `instrument.minSz || lotSize`. -/
def effMinSz (instrument : Instrument) : ℚ :=
  if instrument.minSz = 0 then effLotSz instrument else instrument.minSz

/-- Rounding direction passed to `verifyQuantity`. -/
inductive Rounding where
  | up
  | down
deriving DecidableEq, Repr

/-- Return value of `verifyQuantity`. -/
structure QuantityCheck where
  contracts : ℚ
  minQuantity : ℚ
  adjustedQuantity : ℚ
deriving DecidableEq, Repr

/-- `verifyQuantity` from `src/exchange/okx-executor.ts`: converts a
desired quantity in asset units into a venue-tradeable contract count,
rounding to lot size (`down` for closes, `up` for opens) and enforcing
the instrument minimum. -/
def verifyQuantity (quantity : ℚ) (instrument : Instrument)
    (rounding : Rounding) : QuantityCheck :=
  let ctVal := effCtVal instrument
  let lotSize := effLotSz instrument
  let minSz := effMinSz instrument
  if quantity ≤ 0 ∨ ctVal ≤ 0 then
    { contracts := 0, minQuantity := minSz * ctVal, adjustedQuantity := 0 }
  else
    let contractsRaw := quantity / ctVal
    let c0 : ℚ :=
      if rounding = .down then
        let c := (⌊contractsRaw / lotSize⌋ : ℚ) * lotSize
        if c < minSz then 0 else c
      else
        let c := (⌈contractsRaw / lotSize⌉ : ℚ) * lotSize
        if c < minSz then minSz else c
    let contracts := if c0 < 0 then 0 else c0
    if contracts = 0 then
      { contracts := 0, minQuantity := minSz * ctVal, adjustedQuantity := 0 }
    else
      { contracts := contracts
        minQuantity := minSz * ctVal
        adjustedQuantity := contracts * ctVal }

/-- `Math.sign`. -/
def mathSign (x : ℚ) : ℚ :=
  if 0 < x then 1 else if x < 0 then -1 else 0

/-- `isPureReduction` from `src/exchange/okx-executor.ts`: the order
moves the net position towards zero while staying on the same side. -/
def isPureReduction (currentContracts targetContracts : ℚ) : Bool :=
  if targetContracts = 0 then currentContracts ≠ 0
  else if currentContracts = 0 then false
  else if mathSign currentContracts ≠ mathSign targetContracts then false
  else |targetContracts| < |currentContracts|

/-- The epsilon under which a contract delta counts as already aligned
(`1e-8` in the source). -/
def netEps : ℚ := 1 / 100000000

/-- Signed target contract count:
`(side === "LONG" ? 1 : -1) * quantity / ctVal`. -/
def netTarget (side : Side) (quantity ctVal : ℚ) : ℚ :=
  (if side = .LONG then 1 else -1) * (quantity / ctVal)

/-- Current net contract count:
`positions.reduce((sum, pos) => sum + pos.pos, 0)`. -/
def netCurrent (positions : List ℚ) : ℚ := positions.sum

/-- Order side strings `"buy" | "sell"`. -/
inductive OrderSide where
  | buy
  | sell
deriving DecidableEq, Repr

/-- Inputs of the net-mode reconciliation (`executeInNetMode`): the
signal's side/quantity, the venue position sizes for the instrument, the
instrument constraints, the market price, the effective leverage, the
available balance and the `OKX_FORCE_REDUCE_ONLY` flag. -/
structure NetInputs where
  side : Side
  quantity : ℚ
  positions : List ℚ
  instrument : Instrument
  marketPrice : ℚ
  leverage : ℚ
  available : ℚ
  forceReduceOnly : Bool
deriving Repr

/-- Outcome of the net-mode planning phase: either a terminal result or
the single order that gets submitted. -/
inductive NetPlan where
  | alreadyAligned
  | forceReduceRejected
  | belowMinimum
  | insufficientBalance (requiredMargin : ℚ)
  | placeOrder (side : OrderSide) (contracts : ℚ) (reduceOnly : Bool)
deriving DecidableEq, Repr

/-- `targetContractsSigned` of a net-mode run:
`(side === "LONG" ? 1 : -1) * quantity / ctVal`. -/
def netTargetC (inp : NetInputs) : ℚ :=
  netTarget inp.side inp.quantity (effCtVal inp.instrument)

/-- `deltaContracts = targetContractsSigned - currentNetContracts`. -/
def netDelta (inp : NetInputs) : ℚ :=
  netTargetC inp - netCurrent inp.positions

/-- `reduceOnly = FORCE_REDUCE_ONLY || pureReduction`. -/
def netReduceOnly (inp : NetInputs) : Bool :=
  inp.forceReduceOnly ||
    isPureReduction (netCurrent inp.positions) (netTargetC inp)

/-- `crossingZero`: the current position is nonzero and on the other
side of the signed target. -/
def netCrossingZero (inp : NetInputs) : Bool :=
  decide (netCurrent inp.positions ≠ 0) &&
    decide (mathSign (netCurrent inp.positions) ≠ mathSign (netTargetC inp))

/-- `additionalContracts = max(|target| - |current|, 0)`: the contract
count the order adds on top of the current absolute exposure. -/
def netAdditionalContracts (inp : NetInputs) : ℚ :=
  max (|netTargetC inp| - |netCurrent inp.positions|) 0

/-- `requiredMargin = additionalQuantity * marketPrice / leverage`
with `additionalQuantity = additionalContracts * ctVal`. -/
def netRequiredMargin (inp : NetInputs) : ℚ :=
  netAdditionalContracts inp * effCtVal inp.instrument * inp.marketPrice /
    inp.leverage

/-- The pure planning core of `executeInNetMode`
(`src/exchange/okx-executor.ts`, lines 142-241): computes the delta
between the signed target and the current net position, decides side,
reduce-only flag and rounded size, and applies the incremental margin
check.  The intermediate values (`netDelta`, `netReduceOnly`,
`netCrossingZero`, `netRequiredMargin`, …) are the function's local
`let` bindings, factored out by name.  The subsequent HTTP dispatch
consumes the `placeOrder` outcome. -/
def executeInNetMode (inp : NetInputs) : NetPlan :=
  if |netDelta inp| < netEps then .alreadyAligned
  else if inp.forceReduceOnly = true ∧
      isPureReduction (netCurrent inp.positions) (netTargetC inp) = false then
    .forceReduceRejected
  else
    let rounding : Rounding := if netReduceOnly inp = true then .down else .up
    let quantityCheck := verifyQuantity
      (|netDelta inp| * effCtVal inp.instrument) inp.instrument rounding
    if quantityCheck.contracts ≤ 0 then .belowMinimum
    else
      let orderSide : OrderSide := if 0 < netDelta inp then .buy else .sell
      if netReduceOnly inp = false ∧ netCrossingZero inp = false then
        if 0 < netAdditionalContracts inp * effCtVal inp.instrument ∧
            inp.available < netRequiredMargin inp then
          .insufficientBalance (netRequiredMargin inp)
        else .placeOrder orderSide quantityCheck.contracts (netReduceOnly inp)
      else .placeOrder orderSide quantityCheck.contracts (netReduceOnly inp)

/-! ## Dual (long/short) mode planning (`executeInLongShortMode`) -/

/-- Position leg in dual mode (`posSide`). -/
inductive PosSide where
  | long
  | short
deriving DecidableEq, Repr

/-- `PositionInfo` as consumed by `extractLongShortContracts`: the
reported `posSide` string (if any) and the signed size. -/
structure PositionInfo where
  posSide : Option String
  pos : ℚ
deriving DecidableEq, Repr

/-- `extractLongShortContracts` from `src/exchange/okx-executor.ts`:
splits the venue position list into a long-leg and a short-leg contract
count (later entries of the same leg overwrite earlier ones). -/
def extractLongShortContracts (positions : List PositionInfo) : ℚ × ℚ :=
  positions.foldl
    (fun acc p =>
      if p.posSide = some "long" then (|p.pos|, acc.2)
      else if p.posSide = some "short" then (acc.1, |p.pos|)
      else if 0 < p.pos then (|p.pos|, acc.2)
      else if p.pos < 0 then (acc.1, |p.pos|)
      else acc)
    (0, 0)

/-- `PreparedOrder` from `src/exchange/okx-executor.ts`. -/
structure PreparedOrder where
  side : OrderSide
  quantity : ℚ
  reduceOnly : Bool
  posSide : Option PosSide
deriving DecidableEq, Repr

/-- Outcome of the dual-mode order planning phase: either the
fail-fast `FORCE_REDUCE_ONLY` rejection or the `orders` array built by
`executeInLongShortMode` before its submission loop. -/
inductive LSPlan where
  | forceReduceRejected
  | orders (list : List PreparedOrder)
deriving DecidableEq, Repr

/-- The order-planning phase of `executeInLongShortMode`
(`src/exchange/okx-executor.ts`, lines 269-339): if an opposite-leg
position exists it is closed in full with a reduce-only order, then a
same-leg order is planned for the difference between the target and the
existing same-leg size. -/
def planLongShortOrders (side : Side) (quantity : ℚ)
    (instrument : Instrument) (positions : List PositionInfo)
    (forceReduceOnly : Bool) : LSPlan :=
  let ctVal := effCtVal instrument
  let targetContracts := quantity / ctVal
  let legs := extractLongShortContracts positions
  let longContracts := legs.1
  let shortContracts := legs.2
  match side with
  | .LONG =>
    let closing : List PreparedOrder :=
      if 0 < shortContracts then
        [{ side := .buy, quantity := shortContracts * ctVal,
           reduceOnly := true, posSide := some .short }]
      else []
    let deltaLong := targetContracts - longContracts
    if netEps < |deltaLong| then
      if 0 < deltaLong ∧ forceReduceOnly = true then .forceReduceRejected
      else
        .orders (closing ++
          [{ side := if 0 < deltaLong then .buy else .sell
             quantity := |deltaLong| * ctVal
             reduceOnly := decide (deltaLong < 0) || forceReduceOnly
             posSide := some .long }])
    else .orders closing
  | .SHORT =>
    let closing : List PreparedOrder :=
      if 0 < longContracts then
        [{ side := .sell, quantity := longContracts * ctVal,
           reduceOnly := true, posSide := some .long }]
      else []
    let deltaShort := targetContracts - shortContracts
    if netEps < |deltaShort| then
      if 0 < deltaShort ∧ forceReduceOnly = true then .forceReduceRejected
      else
        .orders (closing ++
          [{ side := if 0 < deltaShort then .sell else .buy
             quantity := |deltaShort| * ctVal
             reduceOnly := decide (deltaShort < 0) || forceReduceOnly
             posSide := some .short }])
    else .orders closing

/-! ## Watch-state deduplication (`src/services/watch-state.ts`) -/

/-- `WatchStatePosition`: the per (agent, symbol) sticky record. -/
structure WatchStatePosition where
  entryOid : Int
  signalMarker : Int
  updatedAt : Int
deriving DecidableEq, Repr

/-- `WatchState`: the nested `agents → positions` record, flattened
into a lookup on (agentId, symbol). -/
structure WatchState where
  positions : String → String → Option WatchStatePosition

/-- The empty watch state (`{ agents: {} }`). -/
def emptyWatchState : WatchState := ⟨fun _ _ => none⟩

/-- Overwrite one (agent, symbol) entry of a watch state. -/
def watchUpdate (st : WatchState) (agentId symbol : String)
    (p : WatchStatePosition) : WatchState :=
  ⟨fun a s => if a = agentId ∧ s = symbol then some p
    else st.positions a s⟩

/-- The fields of a `SignalBundle` that `filterBundlesWithState`
reads. -/
structure WBundle where
  agentId : String
  symbol : String
  entryOid : Int
  signalMarker : Int
deriving DecidableEq, Repr

/-- Dedup key of a bundle. -/
def bkey (b : WBundle) : String × String := (b.agentId, b.symbol)

/-- `FilterResult` from `src/services/watch-state.ts`. -/
structure FilterResult where
  bundles : List WBundle
  nextState : WatchState
  skipped : Nat

/-- The loop body of `filterBundlesWithState`: walks the bundle list,
skipping a bundle whose stored entry carries the same `entryOid` and
otherwise keeping it and overwriting the entry. -/
def filterGo (bundles : List WBundle) (st : WatchState) (skipped : Nat)
    (now : Int) : FilterResult :=
  match bundles with
  | [] => { bundles := [], nextState := st, skipped := skipped }
  | b :: rest =>
    match st.positions b.agentId b.symbol with
    | some p =>
      if p.entryOid = b.entryOid then filterGo rest st (skipped + 1) now
      else
        let st2 := watchUpdate st b.agentId b.symbol
          { entryOid := b.entryOid, signalMarker := b.signalMarker,
            updatedAt := now }
        let r := filterGo rest st2 skipped now
        { bundles := b :: r.bundles, nextState := r.nextState,
          skipped := r.skipped }
    | none =>
      let st2 := watchUpdate st b.agentId b.symbol
        { entryOid := b.entryOid, signalMarker := b.signalMarker,
          updatedAt := now }
      let r := filterGo rest st2 skipped now
      { bundles := b :: r.bundles, nextState := r.nextState,
        skipped := r.skipped }

/-- `filterBundlesWithState` from `src/services/watch-state.ts`
(`new Date()` modelled by the clock parameter `now`). -/
def filterBundlesWithState (bundles : List WBundle) (state : WatchState)
    (now : Int) : FilterResult :=
  filterGo bundles state 0 now

/-- Whether the stored entry for a bundle's key carries the bundle's
`entryOid` (the skip condition of the loop). -/
def storedMatches (st : WatchState) (b : WBundle) : Bool :=
  match st.positions b.agentId b.symbol with
  | some p => p.entryOid = b.entryOid
  | none => false

/-! ## The executor boundary (`OkxExecutor.execute`, `executeDecisions`) -/

/-- `ExecutionReport` from `src/exchange/types.ts` (the optional
`message` is always set on the OKX paths and is kept as a plain
string). -/
structure ExecutionReport where
  decisionId : String
  success : Bool
  message : String
deriving DecidableEq, Repr

/-- The venue response to an order submission (`sCode`, `sMsg`,
`ordId`). -/
structure OkxOrderResponse where
  sCode : String
  sMsg : String
  ordId : Option String
deriving DecidableEq, Repr

/-- The behaviour of the external OKX collaborators during one
`execute` call.  Each field is the outcome of the corresponding HTTP
call; `Except.error` models a thrown exception (network failure, venue
rejection surfaced as an exception, malformed payload). -/
structure VenueEnv where
  hasClient : Bool
  instrument : Except String Instrument
  positionModeOk : Except String Unit
  snapshot : Except String (ℚ × ℚ × List ℚ)
  setLeverageOk : Except String Unit
  orderResponse : Except String OkxOrderResponse

/-- The `try` body of `OkxExecutor.execute` specialised to net mode:
instrument lookup, position-mode setup, the account snapshot, the
net-mode reconciliation and — when an order is planned — leverage
configuration and order submission.  A venue `sCode` other than `"0"`
is re-thrown (`throw new Error(...)` in the source); the protective
TP/SL step catches its own failures and never throws, so it does not
appear among the error paths. -/
def okxExecuteBody (env : VenueEnv) (decision : Decision) :
    Except String ExecutionReport :=
  match env.instrument with
  | .error e => .error e
  | .ok instrument =>
    match env.positionModeOk with
    | .error e => .error e
    | .ok _ =>
      match env.snapshot with
      | .error e => .error e
      | .ok (available, marketPrice, positions) =>
        let leverage :=
          if 0 < decision.signal.leverage then decision.signal.leverage
          else 1
        match executeInNetMode
            { side := decision.signal.side,
              quantity := decision.signal.quantity,
              positions := positions, instrument := instrument,
              marketPrice := marketPrice, leverage := leverage,
              available := available, forceReduceOnly := false } with
        | .alreadyAligned =>
          .ok { decisionId := decision.id, success := true,
                message := "Position already aligned with signal." }
        | .forceReduceRejected =>
          .ok { decisionId := decision.id, success := false,
                message := "FORCE_REDUCE_ONLY is enabled; refusing to increase exposure." }
        | .belowMinimum =>
          .ok { decisionId := decision.id, success := false,
                message := "Order size below instrument minimum." }
        | .insufficientBalance _ =>
          .ok { decisionId := decision.id, success := false,
                message := "Insufficient balance" }
        | .placeOrder _ _ _ =>
          match env.setLeverageOk with
          | .error e => .error e
          | .ok _ =>
            match env.orderResponse with
            | .error e => .error e
            | .ok response =>
              if response.sCode ≠ "" ∧ response.sCode ≠ "0" then
                .error ("OKX error " ++ response.sCode ++ ": " ++
                  response.sMsg)
              else
                .ok { decisionId := decision.id, success := true,
                      message := "Order placed" }

/-- `OkxExecutor.execute`: the missing-credentials early return plus
the `try`/`catch` wrapper that converts every thrown error into a
failed `ExecutionReport` carrying the decision's id. -/
def okxExecute (env : VenueEnv) (decision : Decision) : ExecutionReport :=
  if env.hasClient = false then
    { decisionId := decision.id, success := false,
      message := "Missing OKX credentials (OKX_API_KEY/SECRET/PASS)" }
  else
    match okxExecuteBody env decision with
    | .ok report => report
    | .error msg =>
      { decisionId := decision.id, success := false,
        message := "Execution failed: " ++ msg }

/-- One decision's attempt inside the `executeDecisions` loop
(`src/index.ts`): the per-decision `try`/`catch` that turns a thrown
executor error into a failed report instead of aborting the batch. -/
def attemptExecution (runner : Decision → Except String ExecutionReport)
    (decision : Decision) : ExecutionReport :=
  match runner decision with
  | .ok report => report
  | .error msg =>
    { decisionId := decision.id, success := false,
      message := "Execution threw error: " ++ msg }

/-- `executeDecisions` from `src/index.ts`: does nothing unless
`--execute` is on and `--simulate` is off, filters the EXECUTE
decisions, and attempts every one of them in order, attaching each
report to its decision. -/
def executeDecisions (decisions : List Decision)
    (executeFlag simulate : Bool)
    (runner : Decision → Except String ExecutionReport) :
    List (Decision × ExecutionReport) :=
  if executeFlag = false ∨ simulate = true then []
  else
    (decisions.filter (fun d => d.action = .EXECUTE)).map
      (fun d => (d, attemptExecution runner d))

/-! ## Concrete sample inputs used by witnesses and counterexamples -/

/-- A concrete normalized signal. -/
def sampleSignal : NormalizedSignal :=
  { agentId := "gpt-5", symbol := "BTCUSDT", side := .LONG, quantity := 2,
    leverage := 5, entryPrice := 100, entryOid := 41, signalMarker := 3,
    currentPrice := 101, receivedAt := "t0", signalTimestamp := none }

/-- A concrete guard context. -/
def sampleContext : GuardContext :=
  { now := 1000, rawPosition := none, meta := ⟨"manual", none⟩ }

/-- A guard that passes iff the signal's notional is at most 400; its
check ignores the evaluation context. -/
def sampleNotionalCheck : Guard :=
  { name := "SampleNotional"
    check := fun s _ =>
      { guard := "SampleNotional",
        passed := decide (s.quantity * s.entryPrice ≤ 400),
        reason := none } }

/-- A guard that always passes. -/
def samplePassCheck : Guard :=
  { name := "SamplePass"
    check := fun _ _ =>
      { guard := "SamplePass", passed := true, reason := none } }

/-- A concrete two-guard pipeline. -/
def sampleGuards : List Guard := [samplePassCheck, sampleNotionalCheck]

/-- A concrete signal bundle. -/
def sampleBundle : SignalBundle :=
  { normalized := sampleSignal, raw := none, meta := ⟨"manual", none⟩ }

/-- A concrete guard evaluation whose second result fails. -/
def sampleEvaluation : GuardEvaluation :=
  { signal := sampleSignal
    results :=
      [{ guard := "PriceGuard", passed := true, reason := none },
       { guard := "NotionalGuard", passed := false,
         reason := some "Notional exceeds limit" }]
    passed := false }

/-- A concrete recorded raw-signal event. -/
def sampleEvent : RawEvent :=
  { normalized := sampleSignal, raw := none, meta := ⟨"manual", none⟩ }

/-- Concrete net-mode inputs: current net position +10 contracts,
SHORT signal of 5 (signed target −5), unit instrument constraints. -/
def sampleNetInputs : NetInputs :=
  { side := .SHORT, quantity := 5, positions := [10],
    instrument := ⟨1, 1, 1⟩, marketPrice := 100, leverage := 2,
    available := 1000, forceReduceOnly := false }

/-- Concrete net-mode inputs that increase exposure on the same side
past the available balance: current +10, LONG target +20, no balance. -/
def sampleMarginInputs : NetInputs :=
  { side := .LONG, quantity := 20, positions := [10],
    instrument := ⟨1, 1, 1⟩, marketPrice := 100, leverage := 2,
    available := 0, forceReduceOnly := false }

/-- A concrete EXECUTE decision. -/
def sampleDecision : Decision :=
  { id := "D1", createdAt := 0, action := .EXECUTE,
    reasonCode := "GUARDS_PASS", reason := none, signal := sampleSignal,
    guards := [], raw := none, meta := ⟨"manual", none⟩ }

/-- A concrete venue behaviour whose order submission throws. -/
def sampleVenueEnv : VenueEnv :=
  { hasClient := true, instrument := .ok ⟨1, 1, 1⟩,
    positionModeOk := .ok (), snapshot := .ok (1000, 100, [10]),
    setLeverageOk := .ok (), orderResponse := .error "socket hang up" }

/-! ## Theorems -/

/-- `List.find?` with predicate "not passed" returns the first failing
element: if position `i` fails and every earlier position passes, the
search stops exactly at `i`. -/
theorem find_first_not_passed (l : List GuardResult) (i : Nat)
    (hi : i < l.length) (hfail : (l.get ⟨i, hi⟩).passed = false)
    (hbefore : ∀ j (hj : j < i),
      (l.get ⟨j, Nat.lt_trans hj hi⟩).passed = true) :
    l.find? (fun r => !r.passed) = some (l.get ⟨i, hi⟩) := by
  induction l generalizing i with
  | nil => exact absurd hi (Nat.not_lt_zero i)
  | cons x xs ih =>
    cases i with
    | zero =>
      simp only [List.get] at hfail ⊢
      rw [List.find?_cons_of_pos]
      simp [hfail]
    | succ k =>
      have hx : x.passed = true := hbefore 0 (Nat.succ_pos k)
      have hk : k < xs.length := Nat.lt_of_succ_lt_succ hi
      simp only [List.get] at hfail ⊢
      rw [List.find?_cons_of_neg _ (by simp [hx])]
      exact ih k hk hfail
        (fun j hj => hbefore (j + 1) (Nat.succ_lt_succ hj))

/-- Claim C8: `runGuards` with zero guards returns `passed = true` and
an empty result list; with any guard list it evaluates every guard, in
configuration order, and `passed` is the conjunction of the individual
`passed` flags. -/
theorem runGuards_spec (s : NormalizedSignal) (c : GuardContext)
    (gs : List Guard) :
    runGuards s c [] = { signal := s, results := [], passed := true } ∧
    (runGuards s c gs).signal = s ∧
    (runGuards s c gs).results = gs.map (fun g => g.check s c) ∧
    (∀ i : Nat, (runGuards s c gs).results[i]? =
      (gs[i]?).map (fun g => g.check s c)) ∧
    ((runGuards s c gs).passed = true ↔
      ∀ r ∈ (runGuards s c gs).results, r.passed = true) := by
  refine ⟨by simp [runGuards], ?_, ?_, ?_, ?_⟩
  · cases gs <;> simp [runGuards]
  · cases gs <;> simp [runGuards]
  · intro i
    have h3 : (runGuards s c gs).results = gs.map (fun g => g.check s c) := by
      cases gs <;> simp [runGuards]
    rw [h3, List.getElem?_map]
  · cases gs <;> simp [runGuards, List.all_eq_true]

/-- Claim C8 witness: the specification instantiated at a concrete
signal, context and two-guard pipeline. -/
theorem runGuards_spec_witness :
    runGuards sampleSignal sampleContext [] =
      { signal := sampleSignal, results := [], passed := true } ∧
    (runGuards sampleSignal sampleContext sampleGuards).signal =
      sampleSignal ∧
    (runGuards sampleSignal sampleContext sampleGuards).results =
      sampleGuards.map (fun g => g.check sampleSignal sampleContext) ∧
    (∀ i : Nat,
      (runGuards sampleSignal sampleContext sampleGuards).results[i]? =
        (sampleGuards[i]?).map
          (fun g => g.check sampleSignal sampleContext)) ∧
    ((runGuards sampleSignal sampleContext sampleGuards).passed = true ↔
      ∀ r ∈ (runGuards sampleSignal sampleContext sampleGuards).results,
        r.passed = true) :=
  runGuards_spec sampleSignal sampleContext sampleGuards

/-- Claim C1: the Decision built by `buildDecision` takes action
SIMULATE whenever the simulate flag is set; otherwise EXECUTE iff every
guard result passed and SKIP otherwise; its reason code is
`<name>_FAIL` for the first failing guard in list order, and otherwise
`SIMULATED` or `GUARDS_PASS` depending on the simulate flag. -/
theorem buildDecision_spec (b : SignalBundle) (ev : GuardEvaluation)
    (simulate : Bool) (now : Int)
    (hp : ev.passed = ev.results.all (fun r => r.passed)) :
    (simulate = true →
      (buildDecision b ev simulate now).action = .SIMULATE) ∧
    (simulate = false →
      ((buildDecision b ev simulate now).action = .EXECUTE ↔
        ∀ r ∈ ev.results, r.passed = true) ∧
      ((buildDecision b ev simulate now).action = .SKIP ↔
        ¬ ∀ r ∈ ev.results, r.passed = true)) ∧
    (∀ i (hi : i < ev.results.length),
      (ev.results.get ⟨i, hi⟩).passed = false →
      (∀ j (hj : j < i),
        (ev.results.get ⟨j, Nat.lt_trans hj hi⟩).passed = true) →
      (buildDecision b ev simulate now).reasonCode =
        (ev.results.get ⟨i, hi⟩).guard ++ "_FAIL") ∧
    ((∀ r ∈ ev.results, r.passed = true) →
      (buildDecision b ev simulate now).reasonCode =
        if simulate then "SIMULATED" else "GUARDS_PASS") := by
  have hpass : ev.passed = true ↔ ∀ r ∈ ev.results, r.passed = true := by
    rw [hp, List.all_eq_true]
  refine ⟨?_, ?_, ?_, ?_⟩
  · intro hs; subst hs; simp [buildDecision]
  · intro hs; subst hs
    constructor
    · rw [← hpass]
      cases h : ev.passed <;> simp [buildDecision, h]
    · rw [← hpass]
      cases h : ev.passed <;> simp [buildDecision, h]
  · intro i hi hfail hbefore
    have hfind := find_first_not_passed ev.results i hi hfail hbefore
    simp [buildDecision, hfind]
  · intro hall
    have hfind : ev.results.find? (fun r => !r.passed) = none := by
      rw [List.find?_eq_none]
      intro r hr
      simp [hall r hr]
    cases simulate <;> simp [buildDecision, hfind]

/-- Claim C1 witness: the specification instantiated at a concrete
bundle and a concrete evaluation whose second guard fails. -/
theorem buildDecision_spec_witness :
    (sampleEvaluation.passed =
      sampleEvaluation.results.all (fun r => r.passed)) ∧
    ((false = true →
      (buildDecision sampleBundle sampleEvaluation false 7).action =
        .SIMULATE) ∧
    (false = false →
      ((buildDecision sampleBundle sampleEvaluation false 7).action =
          .EXECUTE ↔
        ∀ r ∈ sampleEvaluation.results, r.passed = true) ∧
      ((buildDecision sampleBundle sampleEvaluation false 7).action =
          .SKIP ↔
        ¬ ∀ r ∈ sampleEvaluation.results, r.passed = true)) ∧
    (∀ i (hi : i < sampleEvaluation.results.length),
      (sampleEvaluation.results.get ⟨i, hi⟩).passed = false →
      (∀ j (hj : j < i),
        (sampleEvaluation.results.get
          ⟨j, Nat.lt_trans hj hi⟩).passed = true) →
      (buildDecision sampleBundle sampleEvaluation false 7).reasonCode =
        (sampleEvaluation.results.get ⟨i, hi⟩).guard ++ "_FAIL") ∧
    ((∀ r ∈ sampleEvaluation.results, r.passed = true) →
      (buildDecision sampleBundle sampleEvaluation false 7).reasonCode =
        if false then "SIMULATED" else "GUARDS_PASS")) :=
  ⟨by decide, buildDecision_spec sampleBundle sampleEvaluation false 7
    (by decide)⟩

/-- Claim C6 counterexample: two replay runs of the same one-event log
with the same (empty) guard configuration, performed at clock readings
0 and 1, produce different in-memory Decision lists — the generated
decision ids and `createdAt` fields incorporate `Date.now()`. -/
theorem replay_not_identical_across_clocks :
    replayDecisions [sampleEvent] [] false 0 ≠
      replayDecisions [sampleEvent] [] false 1 := by decide

/-- Claim C6 (amended): replay is a deterministic function of the log
contents, the guard configuration and the clock; two replays whose
configured guards do not read the clock agree on every Decision's
action, reason code, reason text, signal and guard results, whatever
the two clock readings are (only the generated ids and `createdAt`
differ).  Replay consumes only the recorded events — the embedding
takes no signal source. -/
theorem replay_deterministic (events : List RawEvent)
    (guards : List Guard) (simulate : Bool) (t1 t2 : Int)
    (hg : ∀ g ∈ guards, ∀ s rp m n1 n2,
      g.check s ⟨n1, rp, m⟩ = g.check s ⟨n2, rp, m⟩) :
    (replayDecisions events guards simulate t1).map decisionCore =
      (replayDecisions events guards simulate t2).map decisionCore := by
  unfold replayDecisions
  rw [List.map_map, List.map_map]
  apply List.map_congr_left
  intro e _
  have hev : runGuards e.normalized ⟨t1, e.raw, e.meta⟩ guards =
      runGuards e.normalized ⟨t2, e.raw, e.meta⟩ guards := by
    have hres : guards.map
        (fun g => g.check e.normalized ⟨t1, e.raw, e.meta⟩) =
        guards.map (fun g => g.check e.normalized ⟨t2, e.raw, e.meta⟩) :=
      List.map_congr_left (fun g hgmem => hg g hgmem e.normalized e.raw e.meta t1 t2)
    unfold runGuards
    rw [hres]
  simp only [Function.comp]
  rw [hev]
  rfl

/-- Claim C6 witness: the amended determinism applied to a concrete
one-event log and the concrete clock-independent sample pipeline, at
clock readings 0 and 5. -/
theorem replay_deterministic_witness :
    (replayDecisions [sampleEvent] sampleGuards false 0).map decisionCore =
      (replayDecisions [sampleEvent] sampleGuards false 5).map decisionCore :=
  replay_deterministic [sampleEvent] sampleGuards false 0 5 (by
    intro g hgmem s rp m n1 n2
    simp only [sampleGuards, List.mem_cons, List.mem_singleton] at hgmem
    rcases hgmem with h | h | h
    · subst h; rfl
    · subst h; rfl
    · exact absurd h (by simp))

/-- Updating one watch-state entry leaves every other (agent, symbol)
entry unchanged. -/
theorem watchUpdate_elsewhere (st : WatchState) (agentId symbol : String)
    (p : WatchStatePosition) (a s : String)
    (h : ¬(a = agentId ∧ s = symbol)) :
    (watchUpdate st agentId symbol p).positions a s = st.positions a s := by
  simp [watchUpdate, h]

/-- `storedMatches` only looks at the bundle's own key, so an update at
a different key does not change it. -/
theorem storedMatches_update (st : WatchState) (b x : WBundle)
    (p : WatchStatePosition) (h : bkey x ≠ bkey b) :
    storedMatches (watchUpdate st b.agentId b.symbol p) x =
      storedMatches st x := by
  have hne : ¬(x.agentId = b.agentId ∧ x.symbol = b.symbol) := by
    rintro ⟨h1, h2⟩
    exact h (by simp [bkey, h1, h2])
  unfold storedMatches
  rw [watchUpdate_elsewhere st b.agentId b.symbol p x.agentId x.symbol hne]

/-- The filter loop never modifies state entries at keys that do not
occur in the bundle list. -/
theorem filterGo_preserves : ∀ (bs : List WBundle) (st : WatchState)
    (k : Nat) (now : Int) (a s : String),
    (∀ b ∈ bs, bkey b ≠ (a, s)) →
    (filterGo bs st k now).nextState.positions a s = st.positions a s := by
  intro bs
  induction bs with
  | nil => intro st k now a s _; rfl
  | cons b rest ih =>
    intro st k now a s h
    have hb : bkey b ≠ (a, s) := h b (List.mem_cons_self b rest)
    have hrest : ∀ x ∈ rest, bkey x ≠ (a, s) :=
      fun x hx => h x (List.mem_cons_of_mem b hx)
    have hne : ¬(a = b.agentId ∧ s = b.symbol) := by
      rintro ⟨h1, h2⟩
      exact hb (by simp [bkey, h1, h2])
    unfold filterGo
    cases hpos : st.positions b.agentId b.symbol with
    | some p =>
      by_cases heq : p.entryOid = b.entryOid
      · simp only [heq, if_pos rfl]
        exact ih st (k + 1) now a s hrest
      · simp only [if_neg heq]
        exact (ih _ k now a s hrest).trans
          (watchUpdate_elsewhere st b.agentId b.symbol _ a s hne)
    | none =>
      exact (ih _ k now a s hrest).trans
        (watchUpdate_elsewhere st b.agentId b.symbol _ a s hne)

/-- After the filter loop, the next state stores every processed
bundle's `entryOid` at that bundle's key (keys assumed distinct within
the batch). -/
theorem filterGo_records : ∀ (bs : List WBundle) (st : WatchState)
    (k : Nat) (now : Int),
    bs.Pairwise (fun x y => bkey x ≠ bkey y) →
    ∀ b ∈ bs, ∃ p,
      (filterGo bs st k now).nextState.positions b.agentId b.symbol =
        some p ∧ p.entryOid = b.entryOid := by
  intro bs
  induction bs with
  | nil => intro st k now _ b hb; cases hb
  | cons b0 rest ih =>
    intro st k now hpw b hb
    obtain ⟨hhead, htail⟩ := List.pairwise_cons.mp hpw
    rcases List.mem_cons.mp hb with rfl | hbrest
    · have hrest : ∀ x ∈ rest, bkey x ≠ (b.agentId, b.symbol) :=
        fun x hx => Ne.symm (hhead x hx)
      unfold filterGo
      cases hpos : st.positions b.agentId b.symbol with
      | some p =>
        dsimp only
        by_cases heq : p.entryOid = b.entryOid
        · rw [if_pos heq]
          rw [filterGo_preserves rest st (k + 1) now _ _ hrest, hpos]
          exact ⟨p, rfl, heq⟩
        · rw [if_neg heq]
          rw [filterGo_preserves rest _ k now _ _ hrest]
          exact ⟨⟨b.entryOid, b.signalMarker, now⟩, by simp [watchUpdate], rfl⟩
      | none =>
        dsimp only
        rw [filterGo_preserves rest _ k now _ _ hrest]
        exact ⟨⟨b.entryOid, b.signalMarker, now⟩, by simp [watchUpdate], rfl⟩
    · unfold filterGo
      cases hpos : st.positions b0.agentId b0.symbol with
      | some p =>
        dsimp only
        by_cases heq : p.entryOid = b0.entryOid
        · rw [if_pos heq]
          exact ih st (k + 1) now htail b hbrest
        · rw [if_neg heq]
          exact ih _ k now htail b hbrest
      | none =>
        dsimp only
        exact ih _ k now htail b hbrest

/-- When every bundle's key already stores that bundle's `entryOid`,
the filter loop keeps nothing, leaves the state unchanged and counts
every bundle as skipped. -/
theorem filterGo_all_matching : ∀ (bs : List WBundle) (st : WatchState)
    (k : Nat) (now : Int),
    (∀ b ∈ bs, storedMatches st b = true) →
    filterGo bs st k now =
      { bundles := [], nextState := st, skipped := k + bs.length } := by
  intro bs
  induction bs with
  | nil => intro st k now _; rfl
  | cons b rest ih =>
    intro st k now h
    have hm := h b (List.mem_cons_self b rest)
    unfold storedMatches at hm
    cases hpos : st.positions b.agentId b.symbol with
    | none => rw [hpos] at hm; cases hm
    | some p =>
      rw [hpos] at hm
      have heq : p.entryOid = b.entryOid := by
        simpa using hm
      unfold filterGo
      rw [hpos]
      simp only [heq, if_pos rfl]
      rw [ih st (k + 1) now (fun x hx => h x (List.mem_cons_of_mem b hx))]
      have : k + 1 + rest.length = k + (rest.length + 1) := by omega
      simp [this]

/-- Under distinct keys, the kept bundles are exactly those whose
stored entry (in the state the loop started from) does not carry the
bundle's `entryOid`. -/
theorem filterGo_bundles_eq_filter : ∀ (bs : List WBundle)
    (st : WatchState) (k : Nat) (now : Int),
    bs.Pairwise (fun x y => bkey x ≠ bkey y) →
    (filterGo bs st k now).bundles =
      bs.filter (fun b => !storedMatches st b) := by
  intro bs
  induction bs with
  | nil => intro st k now _; rfl
  | cons b rest ih =>
    intro st k now hpw
    obtain ⟨hhead, htail⟩ := List.pairwise_cons.mp hpw
    have hcong : rest.filter
        (fun x => !storedMatches (watchUpdate st b.agentId b.symbol
          { entryOid := b.entryOid, signalMarker := b.signalMarker,
            updatedAt := now }) x) =
        rest.filter (fun x => !storedMatches st x) := by
      apply List.filter_congr
      intro x hx
      rw [storedMatches_update st b x _ (Ne.symm (hhead x hx))]
    unfold filterGo
    cases hpos : st.positions b.agentId b.symbol with
    | some p =>
      have hsm : storedMatches st b = decide (p.entryOid = b.entryOid) := by
        unfold storedMatches; rw [hpos]
      dsimp only
      by_cases heq : p.entryOid = b.entryOid
      · rw [if_pos heq]
        rw [ih st (k + 1) now htail]
        rw [List.filter_cons]
        simp [hsm, heq]
      · rw [if_neg heq]
        dsimp only
        rw [ih _ k now htail]
        rw [List.filter_cons]
        simp only [hsm, hcong]
        simp [heq]
    | none =>
      have hsm : storedMatches st b = false := by
        unfold storedMatches; rw [hpos]
      dsimp only
      rw [ih _ k now htail]
      rw [List.filter_cons]
      simp only [hsm, hcong]
      simp

/-- Claim C7 counterexample: with two bundles for the same (agent,
symbol) key but different entry order ids, every bundle is kept on the
first pass, yet filtering the same list again against the returned
next state keeps both again (the state retains only the last kept
entry id per key), so the second pass is not empty. -/
theorem filterBundles_second_pass_not_empty :
    (filterBundlesWithState
      [⟨"a1", "BTC", 1, 1⟩, ⟨"a1", "BTC", 2, 2⟩]
      emptyWatchState 0).bundles =
        [⟨"a1", "BTC", 1, 1⟩, ⟨"a1", "BTC", 2, 2⟩] ∧
    (filterBundlesWithState
      [⟨"a1", "BTC", 1, 1⟩, ⟨"a1", "BTC", 2, 2⟩]
      (filterBundlesWithState
        [⟨"a1", "BTC", 1, 1⟩, ⟨"a1", "BTC", 2, 2⟩]
        emptyWatchState 0).nextState 0).bundles ≠ [] := by
  constructor
  · rfl
  · intro h
    exact absurd h (by decide)

/-- Claim C7 (amended): provided each (agent, symbol) key occurs at
most once in the bundle list — which holds for lists built from
account position maps — `filterBundlesWithState` drops exactly the
bundles whose stored entry carries the same entry order id, records
every processed bundle's entry order id in the returned next state,
and filtering the same bundles again against that next state keeps
nothing and skips them all: an unchanged signal is processed exactly
once across two fetch cycles. -/
theorem filterBundles_dedup (bundles : List WBundle) (st : WatchState)
    (now1 now2 : Int)
    (hd : bundles.Pairwise (fun x y => bkey x ≠ bkey y)) :
    (filterBundlesWithState bundles st now1).bundles =
      bundles.filter (fun b => !storedMatches st b) ∧
    (∀ b ∈ bundles, ∃ p,
      (filterBundlesWithState bundles st now1).nextState.positions
        b.agentId b.symbol = some p ∧ p.entryOid = b.entryOid) ∧
    (filterBundlesWithState bundles
      (filterBundlesWithState bundles st now1).nextState now2).bundles
        = [] ∧
    (filterBundlesWithState bundles
      (filterBundlesWithState bundles st now1).nextState now2).skipped
        = bundles.length := by
  have hrec := filterGo_records bundles st 0 now1 hd
  have hall : ∀ b ∈ bundles,
      storedMatches (filterBundlesWithState bundles st now1).nextState b
        = true := by
    intro b hb
    obtain ⟨p, hp, he⟩ := hrec b hb
    unfold storedMatches
    unfold filterBundlesWithState
    rw [hp]
    simp [he]
  have hsecond := filterGo_all_matching bundles
    (filterBundlesWithState bundles st now1).nextState 0 now2 hall
  refine ⟨filterGo_bundles_eq_filter bundles st 0 now1 hd, hrec, ?_, ?_⟩
  · unfold filterBundlesWithState
    unfold filterBundlesWithState at hsecond
    rw [hsecond]
  · unfold filterBundlesWithState
    unfold filterBundlesWithState at hsecond
    rw [hsecond]
    simp

/-- Claim C7 witness: the amended dedup theorem applied to a concrete
two-bundle batch with distinct keys. -/
theorem filterBundles_dedup_witness :
    (filterBundlesWithState [⟨"a1", "BTC", 1, 1⟩, ⟨"a2", "ETH", 2, 2⟩]
      emptyWatchState 3).bundles =
      [⟨"a1", "BTC", 1, 1⟩, ⟨"a2", "ETH", 2, 2⟩].filter
        (fun b => !storedMatches emptyWatchState b) ∧
    (∀ b ∈ [(⟨"a1", "BTC", 1, 1⟩ : WBundle), ⟨"a2", "ETH", 2, 2⟩], ∃ p,
      (filterBundlesWithState [⟨"a1", "BTC", 1, 1⟩, ⟨"a2", "ETH", 2, 2⟩]
        emptyWatchState 3).nextState.positions b.agentId b.symbol =
          some p ∧ p.entryOid = b.entryOid) ∧
    (filterBundlesWithState [⟨"a1", "BTC", 1, 1⟩, ⟨"a2", "ETH", 2, 2⟩]
      (filterBundlesWithState [⟨"a1", "BTC", 1, 1⟩, ⟨"a2", "ETH", 2, 2⟩]
        emptyWatchState 3).nextState 9).bundles = [] ∧
    (filterBundlesWithState [⟨"a1", "BTC", 1, 1⟩, ⟨"a2", "ETH", 2, 2⟩]
      (filterBundlesWithState [⟨"a1", "BTC", 1, 1⟩, ⟨"a2", "ETH", 2, 2⟩]
        emptyWatchState 3).nextState 9).skipped =
      [(⟨"a1", "BTC", 1, 1⟩ : WBundle), ⟨"a2", "ETH", 2, 2⟩].length :=
  filterBundles_dedup [⟨"a1", "BTC", 1, 1⟩, ⟨"a2", "ETH", 2, 2⟩]
    emptyWatchState 3 9 (by decide)

/-- Closed form of `verifyQuantity` for down-rounding on a positive
quantity: floor to a lot multiple, zeroed out below the instrument
minimum. -/
theorem verifyQuantity_down_val (q : ℚ) (inst : Instrument)
    (hq : 0 < q) (hc : 0 < effCtVal inst) (hl : 0 < effLotSz inst) :
    (verifyQuantity q inst .down).contracts =
      if (⌊q / effCtVal inst / effLotSz inst⌋ : ℚ) * effLotSz inst <
          effMinSz inst then 0
      else (⌊q / effCtVal inst / effLotSz inst⌋ : ℚ) * effLotSz inst := by
  have hne : ¬(q ≤ 0 ∨ effCtVal inst ≤ 0) := by
    push_neg; exact ⟨hq, hc⟩
  have hfl : (0 : ℚ) ≤ (⌊q / effCtVal inst / effLotSz inst⌋ : ℚ) *
      effLotSz inst := by
    apply mul_nonneg _ (le_of_lt hl)
    have : (0 : ℤ) ≤ ⌊q / effCtVal inst / effLotSz inst⌋ :=
      Int.floor_nonneg.mpr (le_of_lt (div_pos (div_pos hq hc) hl))
    exact_mod_cast this
  unfold verifyQuantity
  rw [if_neg hne]
  dsimp only
  rw [if_pos rfl]
  by_cases hmin : (⌊q / effCtVal inst / effLotSz inst⌋ : ℚ) *
      effLotSz inst < effMinSz inst
  · rw [if_pos hmin]
    rw [if_neg (lt_irrefl (0 : ℚ))]
    rw [if_pos rfl]
  · rw [if_neg hmin]
    rw [if_neg (not_lt.mpr hfl)]
    by_cases hz : (⌊q / effCtVal inst / effLotSz inst⌋ : ℚ) *
        effLotSz inst = 0
    · rw [if_pos hz]
      exact hz.symm
    · rw [if_neg hz]

/-- Closed form of `verifyQuantity` for up-rounding on a positive
quantity: ceil to a lot multiple, lifted to the instrument minimum. -/
theorem verifyQuantity_up_val (q : ℚ) (inst : Instrument)
    (hq : 0 < q) (hc : 0 < effCtVal inst) (hl : 0 < effLotSz inst) :
    (verifyQuantity q inst .up).contracts =
      if (⌈q / effCtVal inst / effLotSz inst⌉ : ℚ) * effLotSz inst <
          effMinSz inst then effMinSz inst
      else (⌈q / effCtVal inst / effLotSz inst⌉ : ℚ) * effLotSz inst := by
  have hne : ¬(q ≤ 0 ∨ effCtVal inst ≤ 0) := by
    push_neg; exact ⟨hq, hc⟩
  have hcl : (0 : ℚ) < (⌈q / effCtVal inst / effLotSz inst⌉ : ℚ) *
      effLotSz inst := by
    apply mul_pos _ hl
    have : (0 : ℤ) < ⌈q / effCtVal inst / effLotSz inst⌉ :=
      Int.ceil_pos.mpr (div_pos (div_pos hq hc) hl)
    exact_mod_cast this
  unfold verifyQuantity
  rw [if_neg hne]
  dsimp only
  rw [if_neg (by decide : ¬(Rounding.up = Rounding.down))]
  by_cases hmin : (⌈q / effCtVal inst / effLotSz inst⌉ : ℚ) *
      effLotSz inst < effMinSz inst
  · rw [if_pos hmin]
    have hmpos : 0 < effMinSz inst := lt_trans hcl hmin
    rw [if_neg (not_lt.mpr (le_of_lt hmpos))]
    rw [if_neg (ne_of_gt hmpos)]
  · rw [if_neg hmin]
    rw [if_neg (not_lt.mpr (le_of_lt hcl))]
    rw [if_neg (ne_of_gt hcl)]

/-- Up-rounding a positive quantity always produces a positive contract
count of at least the instrument minimum. -/
theorem verifyQuantity_up_min (q : ℚ) (inst : Instrument)
    (hq : 0 < q) (hc : 0 < effCtVal inst) (hl : 0 < effLotSz inst) :
    0 < (verifyQuantity q inst .up).contracts ∧
    effMinSz inst ≤ (verifyQuantity q inst .up).contracts := by
  have hcl : (0 : ℚ) < (⌈q / effCtVal inst / effLotSz inst⌉ : ℚ) *
      effLotSz inst := by
    apply mul_pos _ hl
    have : (0 : ℤ) < ⌈q / effCtVal inst / effLotSz inst⌉ :=
      Int.ceil_pos.mpr (div_pos (div_pos hq hc) hl)
    exact_mod_cast this
  rw [verifyQuantity_up_val q inst hq hc hl]
  by_cases hmin : (⌈q / effCtVal inst / effLotSz inst⌉ : ℚ) *
      effLotSz inst < effMinSz inst
  · rw [if_pos hmin]
    exact ⟨lt_trans hcl hmin, le_refl _⟩
  · rw [if_neg hmin]
    exact ⟨hcl, not_lt.mp hmin⟩

/-- When the desired quantity is already an exact nonneg lot multiple of
contracts at or above the instrument minimum, both roundings return it
unchanged. -/
theorem verifyQuantity_exact (q : ℚ) (inst : Instrument) (r : Rounding)
    (hq : 0 < q) (hc : 0 < effCtVal inst) (hl : 0 < effLotSz inst)
    (hk : ∃ k : ℕ, q / effCtVal inst = (k : ℚ) * effLotSz inst)
    (hm : effMinSz inst ≤ q / effCtVal inst) :
    (verifyQuantity q inst r).contracts = q / effCtVal inst := by
  obtain ⟨k, hkq⟩ := hk
  have hdiv : q / effCtVal inst / effLotSz inst = (k : ℚ) := by
    rw [hkq, mul_div_cancel_right₀ _ (ne_of_gt hl)]
  have hfloor : (⌊q / effCtVal inst / effLotSz inst⌋ : ℚ) *
      effLotSz inst = q / effCtVal inst := by
    rw [hdiv]
    have : ⌊(k : ℚ)⌋ = (k : ℤ) := Int.floor_natCast k
    rw [this]
    rw [hkq]
    norm_num
  have hceil : (⌈q / effCtVal inst / effLotSz inst⌉ : ℚ) *
      effLotSz inst = q / effCtVal inst := by
    rw [hdiv]
    have : ⌈(k : ℚ)⌉ = (k : ℤ) := Int.ceil_natCast k
    rw [this]
    rw [hkq]
    norm_num
  cases r with
  | down =>
    rw [verifyQuantity_down_val q inst hq hc hl, hfloor,
      if_neg (not_lt.mpr hm)]
  | up =>
    rw [verifyQuantity_up_val q inst hq hc hl, hceil,
      if_neg (not_lt.mpr hm)]

/-- Claim C2: net-mode reconciliation signs the target (+quantity for
LONG, −quantity for SHORT, in contracts), takes `delta = target −
current`; below the 1e-8 epsilon it reports the position as already
aligned and prepares no order; otherwise the single prepared order buys
iff delta > 0 and sells iff delta < 0, and (when the delta is already a
lot multiple at or above the instrument minimum) its contract count is
exactly `|delta|`.  In particular current = +10, target = −5 yields a
single SELL of 15 contracts with reduce-only = false. -/
theorem netMode_reconciliation (inp : NetInputs) :
    (|netDelta inp| < netEps → executeInNetMode inp = .alreadyAligned) ∧
    (∀ s c ro, executeInNetMode inp = .placeOrder s c ro →
      ro = netReduceOnly inp ∧
      (s = .buy ↔ 0 < netDelta inp) ∧
      (s = .sell ↔ netDelta inp < 0) ∧
      (0 < effCtVal inp.instrument → 0 < effLotSz inp.instrument →
        (∃ k : ℕ, |netDelta inp| = (k : ℚ) * effLotSz inp.instrument) →
        effMinSz inp.instrument ≤ |netDelta inp| →
        c = |netDelta inp|)) := by
  constructor
  · intro h
    unfold executeInNetMode
    rw [if_pos h]
  · intro s c ro heq
    unfold executeInNetMode at heq
    by_cases h1 : |netDelta inp| < netEps
    · rw [if_pos h1] at heq; simp at heq
    rw [if_neg h1] at heq
    by_cases h2 : inp.forceReduceOnly = true ∧
        isPureReduction (netCurrent inp.positions) (netTargetC inp) = false
    · rw [if_pos h2] at heq; simp at heq
    rw [if_neg h2] at heq
    dsimp only at heq
    by_cases h3 : (verifyQuantity (|netDelta inp| * effCtVal inp.instrument)
        inp.instrument
        (if netReduceOnly inp = true then .down else .up)).contracts ≤ 0
    · rw [if_pos h3] at heq; simp at heq
    rw [if_neg h3] at heq
    have hd0 : netDelta inp ≠ 0 := by
      intro h0
      apply h1
      rw [h0]
      simp [netEps]
    have hmain : s = (if 0 < netDelta inp then OrderSide.buy else .sell) ∧
        c = (verifyQuantity (|netDelta inp| * effCtVal inp.instrument)
          inp.instrument
          (if netReduceOnly inp = true then .down else .up)).contracts ∧
        ro = netReduceOnly inp := by
      by_cases h4 : netReduceOnly inp = false ∧ netCrossingZero inp = false
      · rw [if_pos h4] at heq
        by_cases h5 : 0 < netAdditionalContracts inp * effCtVal inp.instrument ∧
            inp.available < netRequiredMargin inp
        · rw [if_pos h5] at heq; simp at heq
        · rw [if_neg h5] at heq
          obtain ⟨hs, hc, hro⟩ := NetPlan.placeOrder.inj heq
          exact ⟨hs.symm, hc.symm, hro.symm⟩
      · rw [if_neg h4] at heq
        obtain ⟨hs, hc, hro⟩ := NetPlan.placeOrder.inj heq
        exact ⟨hs.symm, hc.symm, hro.symm⟩
    obtain ⟨hs, hcval, hro⟩ := hmain
    refine ⟨hro, ?_, ?_, ?_⟩
    · constructor
      · intro hb
        by_contra hnd
        rw [if_neg hnd] at hs
        rw [hs] at hb
        cases hb
      · intro hd
        rw [if_pos hd] at hs
        exact hs
    · constructor
      · intro hb
        by_cases hd : 0 < netDelta inp
        · rw [if_pos hd] at hs
          rw [hs] at hb
          cases hb
        · exact lt_of_le_of_ne (not_lt.mp hd) hd0
      · intro hd
        rw [if_neg (not_lt.mpr (le_of_lt hd))] at hs
        exact hs
    · intro hc hl hk hm
      have habs : 0 < |netDelta inp| := abs_pos.mpr hd0
      have hqpos : 0 < |netDelta inp| * effCtVal inp.instrument :=
        mul_pos habs hc
      have hdiv : |netDelta inp| * effCtVal inp.instrument /
          effCtVal inp.instrument = |netDelta inp| :=
        mul_div_cancel_right₀ _ (ne_of_gt hc)
      rw [hcval]
      rw [verifyQuantity_exact _ _ _ hqpos hc hl (by rw [hdiv]; exact hk)
        (by rw [hdiv]; exact hm)]
      exact hdiv

/-- Claim C2 witness: net-mode reconciliation at current = +10,
target = −5 (unit instrument) prepares the single order SELL 15 with
reduce-only = false, and the theorem's sizing clause evaluates 15 as
exactly `|delta|`. -/
theorem netMode_reconciliation_witness :
    executeInNetMode sampleNetInputs = .placeOrder .sell 15 false ∧
    (15 : ℚ) = |netDelta sampleNetInputs| := by
  have hside : (Side.SHORT = Side.LONG) = False := by simp
  have hrun : executeInNetMode sampleNetInputs = .placeOrder .sell 15 false := by
    norm_num [executeInNetMode, sampleNetInputs, netDelta, netTargetC,
      netTarget, netCurrent, netReduceOnly, netCrossingZero,
      netAdditionalContracts, netRequiredMargin, isPureReduction, mathSign,
      verifyQuantity, effCtVal, effLotSz, effMinSz, netEps, hside,
      List.sum_cons, List.sum_nil]
  have habs : |netDelta sampleNetInputs| = 15 := by
    norm_num [netDelta, netTargetC, netTarget, netCurrent, effCtVal,
      sampleNetInputs, hside, List.sum_cons, List.sum_nil]
  refine ⟨hrun, ?_⟩
  exact ((netMode_reconciliation sampleNetInputs).2 .sell 15 false hrun).2.2.2
    (by norm_num [effCtVal, sampleNetInputs])
    (by norm_num [effLotSz, sampleNetInputs])
    ⟨15, by rw [habs]; norm_num [effLotSz, sampleNetInputs]⟩
    (by rw [habs]; norm_num [effMinSz, effLotSz, sampleNetInputs])

/-- Claim C4: the net-mode margin check runs only when the order is not
reduce-only and does not cross through zero; the required margin is
computed from the incremental contracts only,
`max(|target| − |current|, 0) · ctVal · marketPrice / leverage`, and the
execution is rejected for insufficient balance exactly when that
incremental quantity is positive and the available balance is below it
— the full target size never enters the comparison. -/
theorem netMode_margin_incremental (inp : NetInputs) :
    (∀ r, executeInNetMode inp = .insufficientBalance r →
      r = netRequiredMargin inp ∧
      netReduceOnly inp = false ∧ netCrossingZero inp = false ∧
      0 < netAdditionalContracts inp * effCtVal inp.instrument ∧
      inp.available < netRequiredMargin inp) ∧
    (¬(|netDelta inp| < netEps) →
     ¬(inp.forceReduceOnly = true ∧
        isPureReduction (netCurrent inp.positions) (netTargetC inp) = false) →
     ¬((verifyQuantity (|netDelta inp| * effCtVal inp.instrument)
        inp.instrument
        (if netReduceOnly inp = true then Rounding.down else .up)).contracts
          ≤ 0) →
     netReduceOnly inp = false → netCrossingZero inp = false →
     0 < netAdditionalContracts inp * effCtVal inp.instrument →
     inp.available < netRequiredMargin inp →
     executeInNetMode inp = .insufficientBalance (netRequiredMargin inp)) := by
  constructor
  · intro r heq
    unfold executeInNetMode at heq
    by_cases h1 : |netDelta inp| < netEps
    · rw [if_pos h1] at heq; simp at heq
    rw [if_neg h1] at heq
    by_cases h2 : inp.forceReduceOnly = true ∧
        isPureReduction (netCurrent inp.positions) (netTargetC inp) = false
    · rw [if_pos h2] at heq; simp at heq
    rw [if_neg h2] at heq
    dsimp only at heq
    by_cases h3 : (verifyQuantity (|netDelta inp| * effCtVal inp.instrument)
        inp.instrument
        (if netReduceOnly inp = true then .down else .up)).contracts ≤ 0
    · rw [if_pos h3] at heq; simp at heq
    rw [if_neg h3] at heq
    by_cases h4 : netReduceOnly inp = false ∧ netCrossingZero inp = false
    · rw [if_pos h4] at heq
      by_cases h5 : 0 < netAdditionalContracts inp * effCtVal inp.instrument ∧
          inp.available < netRequiredMargin inp
      · rw [if_pos h5] at heq
        have hr := NetPlan.insufficientBalance.inj heq
        exact ⟨hr.symm, h4.1, h4.2, h5.1, h5.2⟩
      · rw [if_neg h5] at heq; simp at heq
    · rw [if_neg h4] at heq; simp at heq
  · intro h1 h2 h3 hro hcz hadd hav
    unfold executeInNetMode
    rw [if_neg h1, if_neg h2]
    dsimp only
    rw [if_neg h3, if_pos ⟨hro, hcz⟩, if_pos ⟨hadd, hav⟩]

/-- Claim C4 witness: current = +10, LONG target = +20, price 100,
leverage 2, no balance — the rejection fires with the incremental
margin 10 · 100 / 2 = 500, not the full-target 1000. -/
theorem netMode_margin_incremental_witness :
    executeInNetMode sampleMarginInputs =
      .insufficientBalance (netRequiredMargin sampleMarginInputs) ∧
    netRequiredMargin sampleMarginInputs = 500 := by
  have hside : (Side.LONG = Side.LONG) = True := by simp
  constructor
  · exact (netMode_margin_incremental sampleMarginInputs).2
      (by norm_num [netDelta, netTargetC, netTarget, netCurrent, effCtVal,
        sampleMarginInputs, netEps, List.sum_cons, List.sum_nil])
      (by norm_num [sampleMarginInputs])
      (by
        have h15 : |netDelta sampleMarginInputs| = 10 := by
          norm_num [netDelta, netTargetC, netTarget, netCurrent, effCtVal,
            sampleMarginInputs, List.sum_cons, List.sum_nil]
        have hro : netReduceOnly sampleMarginInputs = false := by
          norm_num [netReduceOnly, isPureReduction, mathSign, netCurrent,
            netTargetC, netTarget, effCtVal, sampleMarginInputs,
            List.sum_cons, List.sum_nil]
        rw [h15, hro]
        norm_num [verifyQuantity, effCtVal, effLotSz, effMinSz,
          sampleMarginInputs])
      (by norm_num [netReduceOnly, isPureReduction, mathSign, netCurrent,
        netTargetC, netTarget, effCtVal, sampleMarginInputs,
        List.sum_cons, List.sum_nil])
      (by norm_num [netCrossingZero, mathSign, netCurrent, netTargetC,
        netTarget, effCtVal, sampleMarginInputs, List.sum_cons,
        List.sum_nil])
      (by norm_num [netAdditionalContracts, netTargetC, netTarget,
        netCurrent, effCtVal, sampleMarginInputs, List.sum_cons,
        List.sum_nil])
      (by norm_num [netRequiredMargin, netAdditionalContracts, netTargetC,
        netTarget, netCurrent, effCtVal, sampleMarginInputs,
        List.sum_cons, List.sum_nil])
  · norm_num [netRequiredMargin, netAdditionalContracts, netTargetC,
      netTarget, netCurrent, effCtVal, sampleMarginInputs,
      List.sum_cons, List.sum_nil]

/-- Claim C5 counterexample: with lot size 10 and instrument minimum 15
(not itself a lot multiple), up-rounding a desired quantity of 3
returns exactly 15 contracts, which is not a multiple of the lot
size — the code lifts a too-small rounded value to `minSz` as-is. -/
theorem verifyQuantity_up_not_lot_multiple :
    (verifyQuantity 3 ⟨1, 10, 15⟩ .up).contracts = 15 ∧
    ¬ ∃ k : ℤ, (15 : ℚ) = (k : ℚ) * 10 := by
  constructor
  · have hceil : ⌈(3 : ℚ) / 10⌉ = 1 := by
      rw [Int.ceil_eq_iff]
      norm_num
    rw [verifyQuantity_up_val 3 ⟨1, 10, 15⟩ (by norm_num)
      (by norm_num [effCtVal]) (by norm_num [effLotSz])]
    norm_num [effCtVal, effLotSz, effMinSz, hceil]
  · rintro ⟨k, hk⟩
    have h2 : (15 : ℚ) = ((10 * k : ℤ) : ℚ) := by push_cast; linarith
    have h3 : (15 : ℤ) = 10 * k := by exact_mod_cast h2
    omega

/-- Claim C5 (amended): for positive venue constraints, down-rounding
(closing orders) yields a lot multiple not exceeding the desired
quantity, zeroed out when the rounded value is below the instrument
minimum (so a close never exceeds what is held); up-rounding (opening
orders) yields at least the instrument minimum, and a lot multiple
whenever the instrument minimum is itself one (otherwise it may be
exactly the instrument minimum); and in net mode a zero-contract check
rejects the execution as below the instrument minimum before any order
is sent. -/
theorem verifyQuantity_rounding_spec (q : ℚ) (inst : Instrument)
    (hq : 0 < q) (hc : 0 < effCtVal inst) (hl : 0 < effLotSz inst) :
    (∃ k : ℤ, (verifyQuantity q inst .down).contracts =
      (k : ℚ) * effLotSz inst) ∧
    (verifyQuantity q inst .down).contracts * effCtVal inst ≤ q ∧
    0 ≤ (verifyQuantity q inst .down).contracts ∧
    ((⌊q / effCtVal inst / effLotSz inst⌋ : ℚ) * effLotSz inst <
        effMinSz inst → (verifyQuantity q inst .down).contracts = 0) ∧
    effMinSz inst ≤ (verifyQuantity q inst .up).contracts ∧
    ((∃ m : ℤ, effMinSz inst = (m : ℚ) * effLotSz inst) →
      ∃ k : ℤ, (verifyQuantity q inst .up).contracts =
        (k : ℚ) * effLotSz inst) ∧
    (∀ inp : NetInputs,
      ¬(|netDelta inp| < netEps) →
      ¬(inp.forceReduceOnly = true ∧
        isPureReduction (netCurrent inp.positions) (netTargetC inp)
          = false) →
      (verifyQuantity (|netDelta inp| * effCtVal inp.instrument)
        inp.instrument
        (if netReduceOnly inp = true then Rounding.down else .up)).contracts
          ≤ 0 →
      executeInNetMode inp = .belowMinimum) := by
  have hdval := verifyQuantity_down_val q inst hq hc hl
  have hfle : (⌊q / effCtVal inst / effLotSz inst⌋ : ℚ) * effLotSz inst ≤
      q / effCtVal inst := by
    have h1 : (⌊q / effCtVal inst / effLotSz inst⌋ : ℚ) ≤
        q / effCtVal inst / effLotSz inst := Int.floor_le _
    have h2 := mul_le_mul_of_nonneg_right h1 (le_of_lt hl)
    rwa [div_mul_cancel₀ _ (ne_of_gt hl)] at h2
  refine ⟨?_, ?_, ?_, ?_, (verifyQuantity_up_min q inst hq hc hl).2, ?_, ?_⟩
  · rw [hdval]
    by_cases hmin : (⌊q / effCtVal inst / effLotSz inst⌋ : ℚ) *
        effLotSz inst < effMinSz inst
    · rw [if_pos hmin]; exact ⟨0, by simp⟩
    · rw [if_neg hmin]; exact ⟨_, rfl⟩
  · rw [hdval]
    by_cases hmin : (⌊q / effCtVal inst / effLotSz inst⌋ : ℚ) *
        effLotSz inst < effMinSz inst
    · rw [if_pos hmin]; simpa using le_of_lt hq
    · rw [if_neg hmin]
      exact (le_div_iff₀ hc).mp hfle
  · rw [hdval]
    by_cases hmin : (⌊q / effCtVal inst / effLotSz inst⌋ : ℚ) *
        effLotSz inst < effMinSz inst
    · rw [if_pos hmin]
    · rw [if_neg hmin]
      apply mul_nonneg _ (le_of_lt hl)
      have : (0 : ℤ) ≤ ⌊q / effCtVal inst / effLotSz inst⌋ :=
        Int.floor_nonneg.mpr (le_of_lt (div_pos (div_pos hq hc) hl))
      exact_mod_cast this
  · intro hmin
    rw [hdval, if_pos hmin]
  · intro ⟨m, hm⟩
    rw [verifyQuantity_up_val q inst hq hc hl]
    by_cases hmin : (⌈q / effCtVal inst / effLotSz inst⌉ : ℚ) *
        effLotSz inst < effMinSz inst
    · rw [if_pos hmin]; exact ⟨m, hm⟩
    · rw [if_neg hmin]; exact ⟨_, rfl⟩
  · intro inp h1 h2 h3
    unfold executeInNetMode
    rw [if_neg h1, if_neg h2]
    dsimp only
    rw [if_pos h3]

/-- Claim C5 witness: the rounding specification instantiated at
desired quantity 7, contract value 1, lot size 2, minimum 4. -/
theorem verifyQuantity_rounding_spec_witness :
    (∃ k : ℤ, (verifyQuantity 7 ⟨1, 2, 4⟩ .down).contracts =
      (k : ℚ) * effLotSz ⟨1, 2, 4⟩) ∧
    (verifyQuantity 7 ⟨1, 2, 4⟩ .down).contracts * effCtVal ⟨1, 2, 4⟩
      ≤ 7 ∧
    0 ≤ (verifyQuantity 7 ⟨1, 2, 4⟩ .down).contracts ∧
    ((⌊(7 : ℚ) / effCtVal ⟨1, 2, 4⟩ / effLotSz ⟨1, 2, 4⟩⌋ : ℚ) *
        effLotSz ⟨1, 2, 4⟩ < effMinSz ⟨1, 2, 4⟩ →
      (verifyQuantity 7 ⟨1, 2, 4⟩ .down).contracts = 0) ∧
    effMinSz ⟨1, 2, 4⟩ ≤ (verifyQuantity 7 ⟨1, 2, 4⟩ .up).contracts ∧
    ((∃ m : ℤ, effMinSz ⟨1, 2, 4⟩ = (m : ℚ) * effLotSz ⟨1, 2, 4⟩) →
      ∃ k : ℤ, (verifyQuantity 7 ⟨1, 2, 4⟩ .up).contracts =
        (k : ℚ) * effLotSz ⟨1, 2, 4⟩) ∧
    (∀ inp : NetInputs,
      ¬(|netDelta inp| < netEps) →
      ¬(inp.forceReduceOnly = true ∧
        isPureReduction (netCurrent inp.positions) (netTargetC inp)
          = false) →
      (verifyQuantity (|netDelta inp| * effCtVal inp.instrument)
        inp.instrument
        (if netReduceOnly inp = true then Rounding.down else .up)).contracts
          ≤ 0 →
      executeInNetMode inp = .belowMinimum) :=
  verifyQuantity_rounding_spec 7 ⟨1, 2, 4⟩ (by norm_num)
    (by norm_num [effCtVal]) (by norm_num [effLotSz])

/-- Claim C10 counterexample: a positive desired quantity (1/2) and a
positive contract value (1) with a degenerate negative lot size make
up-rounding return zero contracts — the claim's positivity hypotheses
do not suffice without a positive lot size. -/
theorem verifyQuantity_up_zero_counterexample :
    (0 : ℚ) < 1 / 2 ∧ (0 : ℚ) < (Instrument.mk 1 (-1) 0).ctVal ∧
    (verifyQuantity (1 / 2) ⟨1, -1, 0⟩ .up).contracts = 0 := by
  refine ⟨by norm_num, by norm_num, ?_⟩
  have hceil : ⌈-(1 / 2 : ℚ)⌉ = 0 := by
    rw [Int.ceil_eq_iff]
    norm_num
  have hrond : (Rounding.up = Rounding.down) = False := by simp
  unfold verifyQuantity
  norm_num [effCtVal, effLotSz, effMinSz, hceil, hrond]

/-- Claim C10 (amended): for a positive desired quantity and positive
contract, lot and (well-formed) instrument constants, up-rounding never
returns zero — it returns at least the instrument minimum — and
therefore the net-mode "Order size below instrument minimum." rejection
is reachable only when the order is reduce-only (rounded down). -/
theorem netMode_belowMinimum_only_reduceOnly (q : ℚ) (inst : Instrument)
    (inp : NetInputs) (hq : 0 < q) (hc : 0 < inst.ctVal)
    (hl : 0 < inst.lotSz) (hc2 : 0 < inp.instrument.ctVal)
    (hl2 : 0 < inp.instrument.lotSz) :
    (0 < (verifyQuantity q inst .up).contracts ∧
      effMinSz inst ≤ (verifyQuantity q inst .up).contracts) ∧
    (executeInNetMode inp = .belowMinimum → netReduceOnly inp = true) := by
  have heffc : 0 < effCtVal inst := by
    unfold effCtVal; rw [if_neg (ne_of_gt hc)]; exact hc
  have heffl : 0 < effLotSz inst := by
    unfold effLotSz; rw [if_neg (ne_of_gt hl)]; exact hl
  have heffc2 : 0 < effCtVal inp.instrument := by
    unfold effCtVal; rw [if_neg (ne_of_gt hc2)]; exact hc2
  have heffl2 : 0 < effLotSz inp.instrument := by
    unfold effLotSz; rw [if_neg (ne_of_gt hl2)]; exact hl2
  refine ⟨⟨(verifyQuantity_up_min q inst hq heffc heffl).1,
    (verifyQuantity_up_min q inst hq heffc heffl).2⟩, ?_⟩
  intro heq
  cases hro : netReduceOnly inp with
  | true => rfl
  | false =>
    exfalso
    unfold executeInNetMode at heq
    by_cases h1 : |netDelta inp| < netEps
    · rw [if_pos h1] at heq; simp at heq
    rw [if_neg h1] at heq
    by_cases h2 : inp.forceReduceOnly = true ∧
        isPureReduction (netCurrent inp.positions) (netTargetC inp) = false
    · rw [if_pos h2] at heq; simp at heq
    rw [if_neg h2] at heq
    dsimp only at heq
    by_cases h3 : (verifyQuantity (|netDelta inp| * effCtVal inp.instrument)
        inp.instrument
        (if netReduceOnly inp = true then .down else .up)).contracts ≤ 0
    · have hd0 : netDelta inp ≠ 0 := by
        intro h0
        apply h1
        rw [h0]
        simp [netEps]
      have hqpos : 0 < |netDelta inp| * effCtVal inp.instrument :=
        mul_pos (abs_pos.mpr hd0) heffc2
      have hup := (verifyQuantity_up_min _ inp.instrument hqpos heffc2
        heffl2).1
      rw [hro] at h3
      rw [if_neg (by simp : ¬(false = true))] at h3
      exact absurd hup (not_lt.mpr h3)
    · rw [if_neg h3] at heq
      by_cases h4 : netReduceOnly inp = false ∧ netCrossingZero inp = false
      · rw [if_pos h4] at heq
        by_cases h5 : 0 < netAdditionalContracts inp *
            effCtVal inp.instrument ∧
            inp.available < netRequiredMargin inp
        · rw [if_pos h5] at heq; simp at heq
        · rw [if_neg h5] at heq; simp at heq
      · rw [if_neg h4] at heq; simp at heq

/-- Claim C10 witness: the amended theorem instantiated at quantity 3,
unit instrument, and the concrete aligned sample inputs. -/
theorem netMode_belowMinimum_only_reduceOnly_witness :
    (0 < (verifyQuantity 3 (Instrument.mk 1 1 1) .up).contracts ∧
      effMinSz ⟨1, 1, 1⟩ ≤ (verifyQuantity 3 ⟨1, 1, 1⟩ .up).contracts) ∧
    (executeInNetMode sampleNetInputs = .belowMinimum →
      netReduceOnly sampleNetInputs = true) :=
  netMode_belowMinimum_only_reduceOnly 3 ⟨1, 1, 1⟩ sampleNetInputs
    (by norm_num) (by norm_num) (by norm_num)
    (by norm_num [sampleNetInputs]) (by norm_num [sampleNetInputs])

/-- Claim C3 counterexample: with an existing short leg of 8 and a LONG
signal of quantity 3 (unit instrument), the dual-mode planner emits TWO
orders — a reduce-only BUY of 8 closing the whole short leg, then an
opening BUY of 3 on the long leg — not a single reduce-only BUY of 3. -/
theorem dualMode_full_close_counterexample :
    planLongShortOrders .LONG 3 ⟨1, 1, 1⟩ [⟨some "short", 8⟩] false =
      .orders [⟨.buy, 8, true, some .short⟩,
        ⟨.buy, 3, false, some .long⟩] ∧
    planLongShortOrders .LONG 3 ⟨1, 1, 1⟩ [⟨some "short", 8⟩] false ≠
      .orders [⟨.buy, 3, true, some .short⟩] := by
  have hstr : (some "short" = some ("long" : String)) = False := by decide
  have hstr2 : (some "short" = some ("short" : String)) = True := by decide
  have hmain : planLongShortOrders .LONG 3 ⟨1, 1, 1⟩
      [⟨some "short", 8⟩] false =
      .orders [⟨.buy, 8, true, some .short⟩,
        ⟨.buy, 3, false, some .long⟩] := by
    norm_num [planLongShortOrders, extractLongShortContracts, effCtVal,
      netEps, hstr, hstr2, List.foldl_cons, List.foldl_nil]
  refine ⟨hmain, ?_⟩
  rw [hmain]
  intro hcon
  simp at hcon

/-- Claim C3 (amended): in dual mode, when the signal's side opposes an
existing opposite-leg position, the first planned order is a
reduce-only closing order for the FULL existing opposite leg (it is not
capped at the requested quantity), and a same-leg order is additionally
planned for the difference between the requested quantity and the
existing same-leg size whenever that difference exceeds the epsilon; in
the 8-vs-3 example this yields two orders (a reduce-only BUY of 8 on
the short leg and an opening BUY of 3 on the long leg). -/
theorem dualMode_opposite_leg (quantity : ℚ) (inst : Instrument)
    (positions : List PositionInfo) :
    (0 < (extractLongShortContracts positions).2 →
      ∃ rest, planLongShortOrders .LONG quantity inst positions false =
        .orders ((⟨.buy,
          (extractLongShortContracts positions).2 * effCtVal inst,
          true, some .short⟩ : PreparedOrder) :: rest) ∧
        (rest = [] ↔ |quantity / effCtVal inst -
          (extractLongShortContracts positions).1| ≤ netEps) ∧
        ∀ o ∈ rest, o.posSide = some .long ∧
          o.quantity = |quantity / effCtVal inst -
            (extractLongShortContracts positions).1| * effCtVal inst ∧
          o.reduceOnly = decide (quantity / effCtVal inst -
            (extractLongShortContracts positions).1 < 0)) ∧
    (0 < (extractLongShortContracts positions).1 →
      ∃ rest, planLongShortOrders .SHORT quantity inst positions false =
        .orders ((⟨.sell,
          (extractLongShortContracts positions).1 * effCtVal inst,
          true, some .long⟩ : PreparedOrder) :: rest) ∧
        (rest = [] ↔ |quantity / effCtVal inst -
          (extractLongShortContracts positions).2| ≤ netEps) ∧
        ∀ o ∈ rest, o.posSide = some .short ∧
          o.quantity = |quantity / effCtVal inst -
            (extractLongShortContracts positions).2| * effCtVal inst ∧
          o.reduceOnly = decide (quantity / effCtVal inst -
            (extractLongShortContracts positions).2 < 0)) := by
  constructor
  · intro hshort
    unfold planLongShortOrders
    dsimp only
    rw [if_pos hshort]
    by_cases hd : netEps < |quantity / effCtVal inst -
        (extractLongShortContracts positions).1|
    · rw [if_pos hd]
      rw [if_neg (by simp : ¬(0 < quantity / effCtVal inst -
          (extractLongShortContracts positions).1 ∧ false = true))]
      refine ⟨_, rfl, ?_, ?_⟩
      · constructor
        · intro hcon; cases hcon
        · intro hcon; exact absurd hcon (not_le.mpr hd)
      · intro o ho
        cases ho with
        | head => exact ⟨rfl, rfl, by simp⟩
        | tail _ h2 => cases h2
    · rw [if_neg hd]
      refine ⟨[], by simp, ?_, ?_⟩
      · simp [not_lt.mp hd]
      · intro o ho; cases ho
  · intro hlong
    unfold planLongShortOrders
    dsimp only
    rw [if_pos hlong]
    by_cases hd : netEps < |quantity / effCtVal inst -
        (extractLongShortContracts positions).2|
    · rw [if_pos hd]
      rw [if_neg (by simp : ¬(0 < quantity / effCtVal inst -
          (extractLongShortContracts positions).2 ∧ false = true))]
      refine ⟨_, rfl, ?_, ?_⟩
      · constructor
        · intro hcon; cases hcon
        · intro hcon; exact absurd hcon (not_le.mpr hd)
      · intro o ho
        cases ho with
        | head => exact ⟨rfl, rfl, by simp⟩
        | tail _ h2 => cases h2
    · rw [if_neg hd]
      refine ⟨[], by simp, ?_, ?_⟩
      · simp [not_lt.mp hd]
      · intro o ho; cases ho

/-- Claim C3 witness: the amended dual-mode theorem applied to the
concrete existing short leg of 8 with a LONG signal of quantity 3. -/
theorem dualMode_opposite_leg_witness :
    (0 : ℚ) < (extractLongShortContracts [⟨some "short", 8⟩]).2 ∧
    (∃ rest,
      planLongShortOrders .LONG 3 ⟨1, 1, 1⟩ [⟨some "short", 8⟩] false =
        .orders ((⟨.buy,
          (extractLongShortContracts [⟨some "short", 8⟩]).2 *
            effCtVal ⟨1, 1, 1⟩,
          true, some .short⟩ : PreparedOrder) :: rest) ∧
      (rest = [] ↔ |(3 : ℚ) / effCtVal ⟨1, 1, 1⟩ -
        (extractLongShortContracts [⟨some "short", 8⟩]).1| ≤ netEps) ∧
      ∀ o ∈ rest, o.posSide = some .long ∧
        o.quantity = |(3 : ℚ) / effCtVal ⟨1, 1, 1⟩ -
          (extractLongShortContracts [⟨some "short", 8⟩]).1| *
            effCtVal ⟨1, 1, 1⟩ ∧
        o.reduceOnly = decide ((3 : ℚ) / effCtVal ⟨1, 1, 1⟩ -
          (extractLongShortContracts [⟨some "short", 8⟩]).1 < 0)) := by
  have hstr : (some "short" = some ("long" : String)) = False := by decide
  have hstr2 : (some "short" = some ("short" : String)) = True := by decide
  have hshort : (0 : ℚ) <
      (extractLongShortContracts [⟨some "short", 8⟩]).2 := by
    norm_num [extractLongShortContracts, List.foldl_cons, List.foldl_nil,
      hstr, hstr2]
  exact ⟨hshort,
    (dualMode_opposite_leg 3 ⟨1, 1, 1⟩ [⟨some "short", 8⟩]).1 hshort⟩

/-- Every successful run of the `try` body of `OkxExecutor.execute`
produces a report carrying the executed decision's id. -/
theorem okxExecuteBody_ok_id (env : VenueEnv) (d : Decision) :
    ∀ rep, okxExecuteBody env d = .ok rep → rep.decisionId = d.id := by
  intro rep h
  unfold okxExecuteBody at h
  dsimp only at h
  repeat' split at h
  all_goals cases h
  all_goals rfl

/-- Claim C9: the executor boundary never escapes: `OkxExecutor.execute`
returns an `ExecutionReport` carrying the decision's id on every path
(missing credentials, instrument-lookup / snapshot / leverage / order
errors, sizing, margin and venue rejections alike), and
`executeDecisions` attempts every EXECUTE decision of the batch — which
decisions are attempted does not depend on any execution outcome — and
attaches to each decision a report with that decision's id (given an
executor that reports the id it was invoked for, as `execute` does).  -/
theorem executor_boundary (env : VenueEnv) (d : Decision)
    (ds : List Decision)
    (runner : Decision → Except String ExecutionReport) :
    (okxExecute env d).decisionId = d.id ∧
    ((executeDecisions ds true false runner).map Prod.fst =
      ds.filter (fun x => x.action = .EXECUTE)) ∧
    ((∀ d2 rep2, runner d2 = .ok rep2 → rep2.decisionId = d2.id) →
      ∀ p ∈ executeDecisions ds true false runner,
        p.2.decisionId = p.1.id) := by
  refine ⟨?_, ?_, ?_⟩
  · unfold okxExecute
    by_cases hcl : env.hasClient = false
    · rw [if_pos hcl]
    · rw [if_neg hcl]
      cases hb : okxExecuteBody env d with
      | ok rep =>
        dsimp only
        exact okxExecuteBody_ok_id env d rep hb
      | error msg => rfl
  · unfold executeDecisions
    rw [if_neg (by simp)]
    simp [Function.comp_def]
  · intro hr p hp
    unfold executeDecisions at hp
    rw [if_neg (by simp)] at hp
    rw [List.mem_map] at hp
    obtain ⟨d2, hd2, hpe⟩ := hp
    subst hpe
    dsimp only
    unfold attemptExecution
    cases hr2 : runner d2 with
    | ok rep =>
      dsimp only
      exact hr d2 rep hr2
    | error m =>
      rfl

/-- Claim C9 witness: the boundary theorem at a concrete venue
behaviour whose order call throws, a concrete decision, a one-decision
batch and a concrete id-preserving runner. -/
theorem executor_boundary_witness :
    (okxExecute sampleVenueEnv sampleDecision).decisionId =
      sampleDecision.id ∧
    ((executeDecisions [sampleDecision] true false
        (fun d2 => .ok ⟨d2.id, true, "ok"⟩)).map Prod.fst =
      [sampleDecision].filter (fun x => x.action = .EXECUTE)) ∧
    (∀ p ∈ executeDecisions [sampleDecision] true false
        (fun d2 => .ok ⟨d2.id, true, "ok"⟩),
      p.2.decisionId = p.1.id) := by
  obtain ⟨h1, h2, h3⟩ := executor_boundary sampleVenueEnv sampleDecision
    [sampleDecision] (fun d2 => .ok ⟨d2.id, true, "ok"⟩)
  refine ⟨h1, h2, h3 ?_⟩
  intro d2 rep2 hh
  cases hh
  rfl
